import Mathlib

/-!
Verification development for the fs-notification core of thin-edge.io
(crates/common/tedge_utils/src/fs_notify.rs).

The Rust code is shallowly embedded: the registry data structure, path
normalisation, watcher registration and the event-translation loop are
translated into executable Lean definitions, and the specified properties
are proved (or refuted) about those definitions.

Modelling conventions:
- std::path paths are modelled by RPath: an absolute flag plus the list of
  components, a component being either the parent-dir marker `..` or a
  plain name; a plain name is an OsName, which is either valid text or an
  abstract non-text byte sequence (capturing OsStr values on which to_str
  returns None).  Rust join / parent / file_name are modelled on this
  representation following their documented semantics.
- HashMap is modelled by an association list with unique keys; BTreeSet by
  a sorted duplicate-free list built by ordered insertion.
- The inotify session is modelled by an oracle giving the result of each
  add_watch call (the code discards that result), and the stream is
  modelled as a function from the finite list of raw items delivered by
  the OS to the list of yielded items.
-/

/-- A final path component name: either valid text or an abstract
non-UTF-8 byte sequence on which to_str fails. -/
inductive OsName where
  | text (s : String)
  | nonText (id : Nat)
deriving DecidableEq, Repr

/-- Rust OsStr.to_str: Some for valid text, None otherwise. -/
def OsName.to_str : OsName → Option String
  | OsName.text s => some s
  | OsName.nonText _ => none

/-- One path component (after std::path normalisation of components):
a parent-directory marker `..` or a normal name. -/
inductive Component where
  | parentDir
  | normal (name : OsName)
deriving DecidableEq, Repr

/-- Model of std::path::PathBuf: absoluteness plus the component list. -/
structure RPath where
  absolute : Bool
  components : List Component
deriving DecidableEq, Repr

/-- Split a character list on the path separator (structural helper for
parseComponents, so that it evaluates inside the kernel). -/
def splitSlashAux : List Char → List Char → List (List Char)
  | [], acc => [acc.reverse]
  | c :: rest, acc =>
      if c = '/' then acc.reverse :: splitSlashAux rest []
      else splitSlashAux rest (c :: acc)

/-- Parse a Rust &str into path components: split on the separator, drop
empty and cur-dir components, read `..` as the parent-dir marker. -/
def parseComponents (s : String) : List Component :=
  (((splitSlashAux s.data []).map (fun cs => String.mk cs)).filter
      (fun c => c ≠ "" ∧ c ≠ ".")).map
    (fun c => if c = ".." then Component.parentDir else Component.normal (OsName.text c))

/-- Model of Path::join with a &str argument: an argument that has a
root (leading separator) replaces the path, otherwise its components are
appended. -/
def RPath.join (p : RPath) (s : String) : RPath :=
  match s.data with
  | '/' :: _ => ⟨true, parseComponents s⟩
  | _ => ⟨p.absolute, p.components ++ parseComponents s⟩

/-- Model of Path::parent: None for the root and for the empty path,
otherwise the path with its final component dropped. -/
def RPath.parent (p : RPath) : Option RPath :=
  match p.components with
  | [] => none
  | _ :: _ => some ⟨p.absolute, p.components.dropLast⟩

/-- Model of Path::file_name: the final component when it is a normal
name, None otherwise (root, empty path, trailing `..`). -/
def RPath.file_name (p : RPath) : Option OsName :=
  match p.components.getLast? with
  | some (Component.normal n) => some n
  | _ => none

/-- The four change kinds of fs_notify::Masks, in source declaration
order (the derived Ord on the Rust enum follows this order). -/
inductive Masks where
  | Modified
  | Deleted
  | Created
  | Undefined
deriving DecidableEq, Repr

/-- Rank realising the derived total order on Masks. -/
def Masks.rank : Masks → Nat
  | Masks.Modified => 0
  | Masks.Deleted => 1
  | Masks.Created => 2
  | Masks.Undefined => 3

/-- From Masks into WatchMask (inotify bit constants:
MODIFY = 0x2, DELETE = 0x200, CREATE = 0x100; Undefined maps to the
empty mask). WatchMask is modelled as a Nat bit set. -/
def watchMaskOf : Masks → Nat
  | Masks.Modified => 2
  | Masks.Deleted => 512
  | Masks.Created => 256
  | Masks.Undefined => 0

/-- From EventMask into Masks: the exact constants MODIFY, DELETE and
CREATE translate, anything else becomes Undefined. -/
def masksOfEventMask (em : Nat) : Masks :=
  if em = 2 then Masks.Modified
  else if em = 512 then Masks.Deleted
  else if em = 256 then Masks.Created
  else Masks.Undefined

/-- The error enum NotifyStreamError; io::Error is modelled by a Nat
code. -/
inductive NotifyStreamError where
  | FromIOError (code : Nat)
  | NotifyInitError
  | ErrorCreatingStream
  | ErrorNormalisingWatcher (path : RPath)
  | UnsupportedWatchMask (mask : Nat)
  | WrongParentDirectory (expected : RPath) (actual : RPath)
  | DuplicateWatcher (mask : Masks) (path : RPath)
deriving DecidableEq, Repr

/-- Association-list lookup with decidable key equality (model of
HashMap::get). -/
def lookupA {α β : Type} [DecidableEq α] : List (α × β) → α → Option β
  | [], _ => none
  | (k, v) :: rest, a => if a = k then some v else lookupA rest a

/-- Association-list entry update (model of HashMap::entry): the function
receives the current value when the key is present and None otherwise,
and its result is stored for the key. -/
def updateA {α β : Type} [DecidableEq α] : List (α × β) → α → (Option β → β) → List (α × β)
  | [], k, f => [(k, f none)]
  | (k, v) :: rest, a, f =>
      if a = k then (k, f (some v)) :: rest else (k, v) :: updateA rest a f

/-- The registry: directory path to (target name to list of masks). -/
structure WatchDescriptor where
  description : List (RPath × List (String × List Masks))
deriving DecidableEq, Repr

/-- WatchDescriptor::new / default: empty registry. -/
def WatchDescriptor.new : WatchDescriptor := ⟨[]⟩

/-- The mask-entry mutation loop of WatchDescriptor::insert: push each
mask of masks that the entry does not yet contain. -/
def addMissing (entry : List Masks) (masks : List Masks) : List Masks :=
  masks.foldl (fun acc m => if m ∈ acc then acc else acc ++ [m]) entry

/-- WatchDescriptor::insert: outer entry(dir_path).or_insert(empty map),
inner entry(file_name).or_insert_with(masks.clone()), then the
push-if-missing loop over masks. -/
def WatchDescriptor.insert (wd : WatchDescriptor) (dir_path : RPath)
    (file_name : String) (masks : List Masks) : WatchDescriptor :=
  ⟨updateA wd.description dir_path (fun files =>
      updateA (files.getD []) file_name (fun entry => addMissing (entry.getD masks) masks))⟩

/-- Ordered duplicate-free insertion realising BTreeSet::insert on the
derived Masks order. -/
def btreeInsert : List Masks → Masks → List Masks
  | [], m => [m]
  | x :: xs, m =>
      if m.rank < x.rank then m :: x :: xs
      else if m.rank = x.rank then x :: xs
      else x :: btreeInsert xs m

/-- WatchDescriptor::get_mask_set_for_directory: None when the directory
has no entry, otherwise the BTreeSet union of the mask lists of every
target under it, returned as a list. -/
def WatchDescriptor.get_mask_set_for_directory (wd : WatchDescriptor) (dir_path : RPath) :
    Option (List Masks) :=
  match lookupA wd.description dir_path with
  | none => none
  | some files =>
      some (files.foldl (fun set p => p.2.foldl btreeInsert set) [])

/-- normalising_watch_dir_and_file: join the candidate directory and the
candidate file, then split into parent and text file name; each missing
piece is an ErrorNormalisingWatcher on the joined path. -/
def normalising_watch_dir_and_file (candidate_watch_dir : RPath) (candidate_file : String) :
    Except NotifyStreamError (RPath × String) :=
  let full_path := candidate_watch_dir.join candidate_file
  match full_path.parent with
  | none => Except.error (NotifyStreamError.ErrorNormalisingWatcher full_path)
  | some parent =>
      match full_path.file_name with
      | none => Except.error (NotifyStreamError.ErrorNormalisingWatcher full_path)
      | some n =>
          match n.to_str with
          | none => Except.error (NotifyStreamError.ErrorNormalisingWatcher full_path)
          | some file => Except.ok (parent, file)

/-- pipe_masks_into_watch_mask: bitwise OR of the WatchMask images of the
given masks. -/
def pipe_masks_into_watch_mask (masks : List Masks) : Nat :=
  masks.foldl (fun acc m => acc ||| watchMaskOf m) 0

/-- The inotify session, reduced to what the code observes: an oracle
giving the success of each add_watch(dir, mask) call (the code binds the
result to _ and never looks at it). -/
structure Inotify where
  addWatchOk : RPath → Nat → Bool

/-- NotifyStream state before consumption: the session and the registry
(the fixed byte buffer carries no information and is omitted). -/
structure NotifyStream where
  inotify : Inotify
  watchers : WatchDescriptor

/-- NotifyStream::add_watcher.  Returns the new state together with the
trace of (directory, mask) registration calls issued to the session.
The unwrap on get_mask_set_for_directory is modelled by getD []; the
entry was inserted just before, so the None case is unreachable
(insert_get_mask_isSome below). -/
def NotifyStream.add_watcher (self : NotifyStream) (dir_path : RPath)
    (file : String) (masks : List Masks) :
    Except NotifyStreamError (NotifyStream × List (RPath × Nat)) :=
  match normalising_watch_dir_and_file dir_path file with
  | Except.error e => Except.error e
  | Except.ok (dir_path, file) =>
      if self.watchers.description.isEmpty then
        let watch_mask := pipe_masks_into_watch_mask masks
        let _ok := self.inotify.addWatchOk dir_path watch_mask
        let wd := WatchDescriptor.new.insert dir_path file masks
        Except.ok ({ self with watchers := wd }, [(dir_path, watch_mask)])
      else
        let watchers := self.watchers.insert dir_path file masks
        let masks2 := (watchers.get_mask_set_for_directory dir_path).getD []
        let watch_mask := pipe_masks_into_watch_mask masks2
        let _ok := self.inotify.addWatchOk dir_path watch_mask
        Except.ok ({ self with watchers := watchers }, [(dir_path, watch_mask)])

/-- One raw inotify event: the watch it was reported against (identified
here by the directory registered for that watch), the raw EventMask bits,
and the optional file name. -/
structure RawEvent where
  wd : RPath
  mask : Nat
  name : Option OsName
deriving DecidableEq, Repr

/-- One item delivered by the underlying OS polling primitive. -/
inductive RawItem where
  | ok (ev : RawEvent)
  | err (code : Nat)
deriving DecidableEq, Repr

/-- One item yielded by the semantic stream. -/
inductive StreamItem where
  | ok (path : RPath) (mask : Masks)
  | err (e : NotifyStreamError)
deriving DecidableEq, Repr

/-- The matching loop body of NotifyStream::stream for one named event:
iterate over every (dir_path, target, flag) triple of the registry; an
exact name match on a matching flag yields dir_path join target, else a
wildcard target on a matching flag yields dir_path join the event name.
Note that the loop ranges over all registered directories; the watch the
event was reported against is not consulted. -/
def matchEvent (watchers : WatchDescriptor) (event_mask : Masks)
    (notify_file_name : String) : List StreamItem :=
  watchers.description.flatMap (fun dk =>
    dk.2.flatMap (fun ff =>
      ff.2.flatMap (fun flag =>
        if ff.1 = notify_file_name ∧ event_mask = flag then
          [StreamItem.ok (dk.1.join ff.1) event_mask]
        else if ff.1 = "*" ∧ event_mask = flag then
          [StreamItem.ok (dk.1.join notify_file_name) event_mask]
        else [])))

/-- The polling loop of NotifyStream::stream as a function from the raw
items the OS delivers to the yielded items: an OS error is yielded once
(wrapped in FromIOError) and ends the stream; an event without a name
yields nothing; a name that is not valid text yields ErrorCreatingStream
once and ends the stream; otherwise the matching loop runs and the stream
continues. -/
def streamProcess (watchers : WatchDescriptor) : List RawItem → List StreamItem
  | [] => []
  | RawItem.err code :: _ => [StreamItem.err (NotifyStreamError.FromIOError code)]
  | RawItem.ok ev :: rest =>
      let event_mask := masksOfEventMask ev.mask
      match ev.name with
      | none => streamProcess watchers rest
      | some n =>
          match n.to_str with
          | none => [StreamItem.err NotifyStreamError.ErrorCreatingStream]
          | some notify_file_name =>
              matchEvent watchers event_mask notify_file_name ++ streamProcess watchers rest

/-- NotifyStream::stream: consume the state and translate the raw items
delivered by its session. -/
def NotifyStream.stream (self : NotifyStream) (raw : List RawItem) : List StreamItem :=
  streamProcess self.watchers raw

/-- Helper: the rank function is injective, so it realises a total order
on the four masks. -/
theorem Masks.rank_inj : ∀ a b : Masks, a.rank = b.rank → a = b := by
  intro a b h
  cases a <;> cases b <;> first
    | rfl
    | exact absurd h (by simp [Masks.rank])

/-- Membership in an ordered-set insertion. -/
theorem btreeInsert_mem (s : List Masks) (m x : Masks) :
    x ∈ btreeInsert s m ↔ x ∈ s ∨ x = m := by
  induction s with
  | nil => simp [btreeInsert]
  | cons y ys ih =>
      by_cases h1 : m.rank < y.rank
      · simp only [btreeInsert, h1, if_true, List.mem_cons]
        tauto
      · by_cases h2 : m.rank = y.rank
        · have hy : m = y := Masks.rank_inj m y h2
          subst hy
          simp only [btreeInsert, h1, h2, if_false, if_true, List.mem_cons]
          tauto
        · simp only [btreeInsert, h1, h2, if_false, List.mem_cons, ih]
          tauto

/-- Membership after folding ordered-set insertion over a list. -/
theorem foldl_btreeInsert_mem (l : List Masks) (s : List Masks) (x : Masks) :
    x ∈ l.foldl btreeInsert s ↔ x ∈ s ∨ x ∈ l := by
  induction l generalizing s with
  | nil => simp
  | cons y ys ih =>
      simp only [List.foldl_cons, ih, btreeInsert_mem, List.mem_cons]
      tauto

/-- Membership in the directory union fold of
get_mask_set_for_directory. -/
theorem foldl_union_mem (files : List (String × List Masks)) (s : List Masks) (x : Masks) :
    x ∈ files.foldl (fun set p => p.2.foldl btreeInsert set) s ↔
      x ∈ s ∨ ∃ p ∈ files, x ∈ p.2 := by
  induction files generalizing s with
  | nil => simp
  | cons q qs ih =>
      rw [List.foldl_cons, ih, foldl_btreeInsert_mem]
      constructor
      · rintro ((hs | hq) | ⟨p, hp, hm⟩)
        · exact Or.inl hs
        · exact Or.inr ⟨q, List.mem_cons_self q qs, hq⟩
        · exact Or.inr ⟨p, List.mem_cons_of_mem q hp, hm⟩
      · rintro (hs | ⟨p, hp, hm⟩)
        · exact Or.inl (Or.inl hs)
        · rcases List.mem_cons.mp hp with hp | hp
          · subst hp
            exact Or.inl (Or.inr hm)
          · exact Or.inr ⟨p, hp, hm⟩

/-- Folding the OR accumulation from an arbitrary accumulator. -/
theorem foldl_lor_acc (l : List Masks) (a : Nat) :
    l.foldl (fun acc m => acc ||| watchMaskOf m) a =
      a ||| pipe_masks_into_watch_mask l := by
  induction l generalizing a with
  | nil => simp [pipe_masks_into_watch_mask, Nat.or_zero]
  | cons m ms ih =>
      simp only [pipe_masks_into_watch_mask, List.foldl_cons] at *
      rw [ih (a ||| watchMaskOf m), ih (0 ||| watchMaskOf m)]
      simp only [Nat.zero_or]
      rw [Nat.lor_assoc]

/-- The OR of a mask list depends only on which masks occur in it:
closed form by membership of the three contributing masks (Undefined
contributes the empty mask). -/
theorem pipe_masks_canon (l : List Masks) :
    pipe_masks_into_watch_mask l =
      (if Masks.Modified ∈ l then 2 else 0) |||
        ((if Masks.Deleted ∈ l then 512 else 0) |||
          (if Masks.Created ∈ l then 256 else 0)) := by
  induction l with
  | nil => simp [pipe_masks_into_watch_mask]
  | cons m ms ih =>
      have hc : pipe_masks_into_watch_mask (m :: ms) =
          watchMaskOf m ||| pipe_masks_into_watch_mask ms := by
        simp only [pipe_masks_into_watch_mask, List.foldl_cons]
        rw [foldl_lor_acc, Nat.zero_or]
        simp [pipe_masks_into_watch_mask]
      rw [hc, ih]
      rcases m <;>
        by_cases h1 : Masks.Modified ∈ ms <;>
        by_cases h2 : Masks.Deleted ∈ ms <;>
        by_cases h3 : Masks.Created ∈ ms <;>
        simp [watchMaskOf, List.mem_cons, h1, h2, h3]

/-- Mask lists with the same members have the same OR image. -/
theorem pipe_masks_mem_congr (l1 l2 : List Masks) (h : ∀ m, m ∈ l1 ↔ m ∈ l2) :
    pipe_masks_into_watch_mask l1 = pipe_masks_into_watch_mask l2 := by
  have hM := propext (h Masks.Modified)
  have hD := propext (h Masks.Deleted)
  have hC := propext (h Masks.Created)
  simp only [pipe_masks_canon, hM, hD, hC]

/-- Lookup after an entry update at the same key. -/
theorem lookupA_updateA_self {α β : Type} [DecidableEq α]
    (l : List (α × β)) (k : α) (f : Option β → β) :
    lookupA (updateA l k f) k = some (f (lookupA l k)) := by
  induction l with
  | nil => simp [updateA, lookupA]
  | cons p rest ih =>
      obtain ⟨a, b⟩ := p
      by_cases h : k = a
      · simp [updateA, lookupA, h]
      · simp [updateA, lookupA, h, ih]

/-- Every value of an updated association list satisfies a predicate
that holds on the old values and is created and preserved by the update
function. -/
theorem updateA_forall {α β : Type} [DecidableEq α] {Q : β → Prop}
    (l : List (α × β)) (k : α) (f : Option β → β)
    (hl : ∀ p ∈ l, Q p.2) (h0 : Q (f none)) (h1 : ∀ v, Q v → Q (f (some v))) :
    ∀ p ∈ updateA l k f, Q p.2 := by
  induction l with
  | nil =>
      intro p hp
      simp [updateA] at hp
      subst hp
      exact h0
  | cons q rest ih =>
      obtain ⟨a, b⟩ := q
      by_cases h : k = a
      · intro p hp
        simp only [updateA, h, if_true, List.mem_cons] at hp
        rcases hp with hp | hp
        · subst hp
          exact h1 b (hl (a, b) (by simp))
        · exact hl p (by simp [hp])
      · intro p hp
        simp only [updateA, h, if_false, List.mem_cons] at hp
        rcases hp with hp | hp
        · subst hp
          exact hl (a, b) (by simp)
        · exact ih (fun q hq => hl q (by simp [hq])) p hp

/-- addMissing does nothing when every pushed mask is already present. -/
theorem addMissing_subset (entry ms : List Masks) (h : ∀ m ∈ ms, m ∈ entry) :
    addMissing entry ms = entry := by
  induction ms generalizing entry with
  | nil => rfl
  | cons m rest ih =>
      have hm : m ∈ entry := h m (by simp)
      have hstep : addMissing entry (m :: rest) = addMissing entry rest := by
        simp [addMissing, List.foldl_cons, hm]
      rw [hstep]
      exact ih entry (fun x hx => h x (by simp [hx]))

/-- addMissing preserves duplicate-freeness of the entry. -/
theorem addMissing_nodup (entry ms : List Masks) (h : entry.Nodup) :
    (addMissing entry ms).Nodup := by
  induction ms generalizing entry with
  | nil => exact h
  | cons m rest ih =>
      have hstep : addMissing entry (m :: rest) =
          addMissing (if m ∈ entry then entry else entry ++ [m]) rest := by
        by_cases hm : m ∈ entry <;> simp [addMissing, List.foldl_cons, hm]
      rw [hstep]
      apply ih
      by_cases hm : m ∈ entry
      · simpa [hm]
      · simp [hm, List.nodup_append, h]

/-- Lookup of the updated directory after WatchDescriptor::insert. -/
theorem insert_lookup_self (wd : WatchDescriptor) (d : RPath) (t : String) (ms : List Masks) :
    lookupA (wd.insert d t ms).description d =
      some (updateA ((lookupA wd.description d).getD []) t
        (fun e => addMissing (e.getD ms) ms)) := by
  simp [WatchDescriptor.insert, lookupA_updateA_self]

/-- Sample absolute directory /d used in the concrete scenarios. -/
def dirD : RPath := ⟨true, [Component.normal (OsName.text "d")]⟩

/-- Second sample absolute directory /e, distinct from /d. -/
def dirE : RPath := ⟨true, [Component.normal (OsName.text "e")]⟩

/-- An always-succeeding add_watch oracle for the concrete scenarios. -/
def okOracle : RPath → Nat → Bool := fun _ _ => true

/-- A sequence of insert calls applied in order to a registry. -/
def applyInserts (wd : WatchDescriptor) (calls : List (RPath × String × List Masks)) :
    WatchDescriptor :=
  calls.foldl (fun w c => w.insert c.1 c.2.1 c.2.2) wd

/-- WatchDescriptor::insert keeps every mask entry duplicate-free when
the inserted mask list is duplicate-free. -/
theorem insert_preserves_nodup (wd : WatchDescriptor) (d : RPath) (t : String)
    (ms : List Masks) (hms : ms.Nodup)
    (hwd : ∀ p ∈ wd.description, ∀ q ∈ p.2, List.Nodup q.2) :
    ∀ p ∈ (wd.insert d t ms).description, ∀ q ∈ p.2, List.Nodup q.2 := by
  have hself : addMissing ms ms = ms :=
    addMissing_subset ms ms (fun m hm => hm)
  have hfiles : ∀ (files : List (String × List Masks)),
      (∀ q ∈ files, List.Nodup q.2) →
      ∀ q ∈ updateA files t (fun e => addMissing (e.getD ms) ms), List.Nodup q.2 := by
    intro files hf
    apply updateA_forall files t _ hf
    · simpa [Option.getD, hself] using hms
    · intro v hv
      simpa [Option.getD] using addMissing_nodup v ms hv
  unfold WatchDescriptor.insert
  exact @updateA_forall _ _ _ (fun files => ∀ q ∈ files, List.Nodup q.2)
    wd.description d
    (fun files => updateA (files.getD []) t (fun entry => addMissing (entry.getD ms) ms))
    hwd (hfiles [] (by simp)) (fun v hv => hfiles v hv)

/-- Claim C2 as stated is refuted: a single insert whose kinds argument
repeats Created leaves the entry [Created, Created], in which Created
occurs twice. -/
theorem C2_counterexample :
    lookupA ((lookupA (WatchDescriptor.new.insert dirD "t"
        [Masks.Created, Masks.Created]).description dirD).getD []) "t" =
      some [Masks.Created, Masks.Created] ∧
    ¬ List.count Masks.Created [Masks.Created, Masks.Created] ≤ 1 := by
  constructor
  · decide
  · decide

/-- Claim C2 (amended): after any sequence of insert calls whose kinds
arguments are each duplicate-free, every (directory, target) entry holds
each ChangeKind at most once; in particular inserting Created twice for
the same pair leaves the kind-set [Created] of size 1.  (A kinds argument
that itself repeats a kind can seed a fresh entry with the repeats, as
C2_counterexample shows.) -/
theorem C2_insert_set_semantics :
    (∀ (calls : List (RPath × String × List Masks)),
        (∀ c ∈ calls, List.Nodup c.2.2) →
        ∀ p ∈ (applyInserts WatchDescriptor.new calls).description,
          ∀ q ∈ p.2, ∀ m : Masks, List.count m q.2 ≤ 1) ∧
    lookupA ((lookupA ((WatchDescriptor.new.insert dirD "t" [Masks.Created]).insert
        dirD "t" [Masks.Created]).description dirD).getD []) "t" =
      some [Masks.Created] := by
  constructor
  · have gen : ∀ (calls : List (RPath × String × List Masks)) (wd : WatchDescriptor),
        (∀ c ∈ calls, List.Nodup c.2.2) →
        (∀ p ∈ wd.description, ∀ q ∈ p.2, List.Nodup q.2) →
        ∀ p ∈ (applyInserts wd calls).description, ∀ q ∈ p.2, List.Nodup q.2 := by
      intro calls
      induction calls with
      | nil =>
          intro wd _ hwd
          simpa [applyInserts] using hwd
      | cons c cs ih =>
          intro wd hc hwd
          have hstep := insert_preserves_nodup wd c.1 c.2.1 c.2.2 (hc c (by simp)) hwd
          have hfold : applyInserts wd (c :: cs) =
              applyInserts (wd.insert c.1 c.2.1 c.2.2) cs := by
            simp [applyInserts, List.foldl_cons]
          rw [hfold]
          exact ih (wd.insert c.1 c.2.1 c.2.2) (fun x hx => hc x (by simp [hx])) hstep
    intro calls hcalls p hp q hq m
    have hnd := gen calls WatchDescriptor.new hcalls (by simp [WatchDescriptor.new]) p hp q hq
    exact List.nodup_iff_count_le_one.mp hnd m
  · decide

/-- Claim C5: get_mask_set_for_directory returns None exactly when the
registry has no entry for the directory, and otherwise Some of the union,
across every target registered for that directory, of the kind list of
the target (set-equivalence). -/
theorem C5_get_mask_set_union (wd : WatchDescriptor) (d : RPath) :
    (wd.get_mask_set_for_directory d = none ↔ lookupA wd.description d = none) ∧
    (∀ u, wd.get_mask_set_for_directory d = some u →
      ∀ m : Masks, m ∈ u ↔
        ∃ files, lookupA wd.description d = some files ∧ ∃ p ∈ files, m ∈ p.2) := by
  cases hl : lookupA wd.description d with
  | none =>
      constructor
      · simp [WatchDescriptor.get_mask_set_for_directory, hl]
      · intro u hu
        simp [WatchDescriptor.get_mask_set_for_directory, hl] at hu
  | some files =>
      constructor
      · simp [WatchDescriptor.get_mask_set_for_directory, hl]
      · intro u hu m
        simp only [WatchDescriptor.get_mask_set_for_directory, hl, Option.some.injEq] at hu
        subst hu
        rw [foldl_union_mem]
        simp

/-- Concrete instantiation of C5: in a registry holding targets a with
Created and b with Created and Modified under /d, Modified belongs to the
directory union because target b holds it. -/
theorem C5_get_mask_set_union_witness :
    WatchDescriptor.get_mask_set_for_directory
        ⟨[(dirD, [("a", [Masks.Created]), ("b", [Masks.Created, Masks.Modified])])]⟩ dirD =
      some [Masks.Modified, Masks.Created] ∧
    Masks.Modified ∈ [Masks.Modified, Masks.Created] :=
  ⟨by decide,
    ((C5_get_mask_set_union
        ⟨[(dirD, [("a", [Masks.Created]), ("b", [Masks.Created, Masks.Modified])])]⟩ dirD).2
      [Masks.Modified, Masks.Created] (by decide) Masks.Modified).mpr
      ⟨[("a", [Masks.Created]), ("b", [Masks.Created, Masks.Modified])], by decide,
        ("b", [Masks.Created, Masks.Modified]), by decide, by decide⟩⟩

/-- Claim C9: normalisation returns the parent and the text of the final
component of the joined path, and errors (always with
ErrorNormalisingWatcher on the joined path) exactly when the joined path
has no parent, or no final-component name, or a final component that is
not representable as text. -/
theorem C9_normalising_spec (dir : RPath) (file : String) :
    (∀ p s, normalising_watch_dir_and_file dir file = Except.ok (p, s) →
        (dir.join file).parent = some p ∧
        ∃ n, (dir.join file).file_name = some n ∧ n.to_str = some s) ∧
    ((∃ e, normalising_watch_dir_and_file dir file = Except.error e) ↔
        ((dir.join file).parent = none ∨ (dir.join file).file_name = none ∨
          ∃ n, (dir.join file).file_name = some n ∧ n.to_str = none)) ∧
    (∀ e, normalising_watch_dir_and_file dir file = Except.error e →
        e = NotifyStreamError.ErrorNormalisingWatcher (dir.join file)) := by
  cases hp : (dir.join file).parent with
  | none =>
      have he : normalising_watch_dir_and_file dir file =
          Except.error (NotifyStreamError.ErrorNormalisingWatcher (dir.join file)) := by
        simp [normalising_watch_dir_and_file, hp]
      refine ⟨?_, ?_, ?_⟩
      · intro p s h
        rw [he] at h
        cases h
      · exact ⟨fun _ => Or.inl rfl, fun _ => ⟨_, he⟩⟩
      · intro e h
        rw [he] at h
        injection h with h2
        exact h2.symm
  | some par =>
      cases hf : (dir.join file).file_name with
      | none =>
          have he : normalising_watch_dir_and_file dir file =
              Except.error (NotifyStreamError.ErrorNormalisingWatcher (dir.join file)) := by
            simp [normalising_watch_dir_and_file, hp, hf]
          refine ⟨?_, ?_, ?_⟩
          · intro p s h
            rw [he] at h
            cases h
          · exact ⟨fun _ => Or.inr (Or.inl rfl), fun _ => ⟨_, he⟩⟩
          · intro e h
            rw [he] at h
            injection h with h2
            exact h2.symm
      | some n =>
          cases hn : n.to_str with
          | none =>
              have he : normalising_watch_dir_and_file dir file =
                  Except.error (NotifyStreamError.ErrorNormalisingWatcher (dir.join file)) := by
                simp [normalising_watch_dir_and_file, hp, hf, hn]
              refine ⟨?_, ?_, ?_⟩
              · intro p s h
                rw [he] at h
                cases h
              · exact ⟨fun _ => Or.inr (Or.inr ⟨n, rfl, hn⟩), fun _ => ⟨_, he⟩⟩
              · intro e h
                rw [he] at h
                injection h with h2
                exact h2.symm
          | some s0 =>
              have he : normalising_watch_dir_and_file dir file = Except.ok (par, s0) := by
                simp [normalising_watch_dir_and_file, hp, hf, hn]
              refine ⟨?_, ?_, ?_⟩
              · intro p s h
                rw [he] at h
                injection h with h2
                injection h2 with hA hB
                subst hA
                subst hB
                exact ⟨rfl, n, rfl, hn⟩
              · constructor
                · rintro ⟨e, hcontr⟩
                  rw [he] at hcontr
                  cases hcontr
                · rintro (h | h | ⟨n2, hn2, ht⟩)
                  · cases h
                  · cases h
                  · injection hn2 with h3
                    subst h3
                    rw [hn] at ht
                    cases ht
              · intro e h
                rw [he] at h
                cases h

/-- Concrete instantiation of C9: normalising /d with file_a splits the
joined path /d/file_a into parent /d and text name file_a. -/
theorem C9_normalising_spec_witness :
    (dirD.join "file_a").parent = some dirD ∧
    ∃ n, (dirD.join "file_a").file_name = some n ∧ n.to_str = some "file_a" :=
  (C9_normalising_spec dirD "file_a").1 dirD "file_a" (by rfl)

/-- Claim C4: add_watcher returns an error exactly when normalisation
fails (and then returns that very error); on success the registry update
is in place, whatever the add_watch oracle answers (the OS registration
result is discarded, so an OS failure neither surfaces nor rolls the
registry back). -/
theorem C4_add_watcher_errors_iff (f : RPath → Nat → Bool) (w : WatchDescriptor)
    (dir : RPath) (file : String) (masks : List Masks) :
    ((∃ e, NotifyStream.add_watcher ⟨⟨f⟩, w⟩ dir file masks = Except.error e) ↔
      (∃ e, normalising_watch_dir_and_file dir file = Except.error e)) ∧
    (∀ e, normalising_watch_dir_and_file dir file = Except.error e →
      NotifyStream.add_watcher ⟨⟨f⟩, w⟩ dir file masks = Except.error e) ∧
    (∀ nd nf, normalising_watch_dir_and_file dir file = Except.ok (nd, nf) →
      ∃ tr, NotifyStream.add_watcher ⟨⟨f⟩, w⟩ dir file masks =
        Except.ok (⟨⟨f⟩, w.insert nd nf masks⟩, tr)) := by
  cases hn : normalising_watch_dir_and_file dir file with
  | error e =>
      have he : NotifyStream.add_watcher ⟨⟨f⟩, w⟩ dir file masks = Except.error e := by
        simp [NotifyStream.add_watcher, hn]
      refine ⟨⟨fun _ => ⟨e, rfl⟩, fun _ => ⟨e, he⟩⟩, ?_, ?_⟩
      · intro e2 h2
        injection h2 with h3
        subst h3
        exact he
      · intro nd nf h2
        cases h2
  | ok pr =>
      obtain ⟨nd, nf⟩ := pr
      obtain ⟨desc⟩ := w
      cases desc with
      | nil =>
          have hok : NotifyStream.add_watcher ⟨⟨f⟩, ⟨[]⟩⟩ dir file masks =
              Except.ok (⟨⟨f⟩, WatchDescriptor.new.insert nd nf masks⟩,
                [(nd, pipe_masks_into_watch_mask masks)]) := by
            simp [NotifyStream.add_watcher, hn, List.isEmpty]
          refine ⟨?_, ?_, ?_⟩
          · constructor
            · rintro ⟨e, h⟩
              rw [hok] at h
              cases h
            · rintro ⟨e, h⟩
              cases h
          · intro e h
            cases h
          · intro nd2 nf2 h
            injection h with h2
            injection h2 with hA hB
            subst hA
            subst hB
            exact ⟨_, hok⟩
      | cons hd tl =>
          have hok : NotifyStream.add_watcher ⟨⟨f⟩, ⟨hd :: tl⟩⟩ dir file masks =
              Except.ok (⟨⟨f⟩, WatchDescriptor.insert ⟨hd :: tl⟩ nd nf masks⟩,
                [(nd, pipe_masks_into_watch_mask
                  (((WatchDescriptor.insert ⟨hd :: tl⟩ nd nf masks).get_mask_set_for_directory
                    nd).getD []))]) := by
            simp [NotifyStream.add_watcher, hn, List.isEmpty]
          refine ⟨?_, ?_, ?_⟩
          · constructor
            · rintro ⟨e, h⟩
              rw [hok] at h
              cases h
            · rintro ⟨e, h⟩
              cases h
          · intro e h
            cases h
          · intro nd2 nf2 h
            injection h with h2
            injection h2 with hA hB
            subst hA
            subst hB
            exact ⟨_, hok⟩

/-- Concrete instantiation of C4: the first registration of Created on
target a under /d succeeds with the registry updated, even though the
oracle used here reports failure of every OS registration call. -/
theorem C4_add_watcher_errors_iff_witness :
    ∃ tr, NotifyStream.add_watcher ⟨⟨fun _ _ => false⟩, WatchDescriptor.new⟩
        dirD "a" [Masks.Created] =
      Except.ok (⟨⟨fun _ _ => false⟩, WatchDescriptor.new.insert dirD "a" [Masks.Created]⟩, tr) :=
  (C4_add_watcher_errors_iff (fun _ _ => false) WatchDescriptor.new dirD "a"
    [Masks.Created]).2.2 dirD "a" (by rfl)

/-- Claim C3: every successful add_watcher issues exactly one OS
registration, for the normalized directory, whose mask is the OR image of
the full union over the registry (after the call) of the kind lists of
every target under that directory; this covers both the empty-registry
branch and the general branch. -/
theorem C3_registration_mask_is_union (f : RPath → Nat → Bool) (w : WatchDescriptor)
    (dir : RPath) (file : String) (masks : List Masks)
    (s2 : NotifyStream) (tr : List (RPath × Nat))
    (h : NotifyStream.add_watcher ⟨⟨f⟩, w⟩ dir file masks = Except.ok (s2, tr)) :
    ∃ nd m u, tr = [(nd, m)] ∧
      s2.watchers.get_mask_set_for_directory nd = some u ∧
      m = pipe_masks_into_watch_mask u := by
  cases hn : normalising_watch_dir_and_file dir file with
  | error e =>
      have he : NotifyStream.add_watcher ⟨⟨f⟩, w⟩ dir file masks = Except.error e := by
        simp [NotifyStream.add_watcher, hn]
      rw [he] at h
      cases h
  | ok pr =>
      obtain ⟨nd, nf⟩ := pr
      obtain ⟨desc⟩ := w
      cases desc with
      | nil =>
          have hok : NotifyStream.add_watcher ⟨⟨f⟩, ⟨[]⟩⟩ dir file masks =
              Except.ok (⟨⟨f⟩, WatchDescriptor.new.insert nd nf masks⟩,
                [(nd, pipe_masks_into_watch_mask masks)]) := by
            simp [NotifyStream.add_watcher, hn, List.isEmpty]
          rw [hok] at h
          injection h with h2
          injection h2 with hA hB
          subst hA
          subst hB
          have hself : addMissing masks masks = masks :=
            addMissing_subset masks masks (fun m hm => hm)
          have hget : (WatchDescriptor.new.insert nd nf masks).get_mask_set_for_directory nd =
              some (masks.foldl btreeInsert []) := by
            simp [WatchDescriptor.get_mask_set_for_directory, insert_lookup_self,
              WatchDescriptor.new, lookupA, updateA, hself]
          refine ⟨nd, pipe_masks_into_watch_mask masks, masks.foldl btreeInsert [], rfl, hget, ?_⟩
          apply pipe_masks_mem_congr
          intro m
          rw [foldl_btreeInsert_mem]
          simp
      | cons hd tl =>
          have hok : NotifyStream.add_watcher ⟨⟨f⟩, ⟨hd :: tl⟩⟩ dir file masks =
              Except.ok (⟨⟨f⟩, WatchDescriptor.insert ⟨hd :: tl⟩ nd nf masks⟩,
                [(nd, pipe_masks_into_watch_mask
                  (((WatchDescriptor.insert ⟨hd :: tl⟩ nd nf masks).get_mask_set_for_directory
                    nd).getD []))]) := by
            simp [NotifyStream.add_watcher, hn, List.isEmpty]
          rw [hok] at h
          injection h with h2
          injection h2 with hA hB
          subst hA
          subst hB
          have hget : (WatchDescriptor.insert ⟨hd :: tl⟩ nd nf masks).get_mask_set_for_directory
              nd =
              some ((updateA ((lookupA (hd :: tl) nd).getD []) nf
                (fun e => addMissing (e.getD masks) masks)).foldl
                  (fun set p => p.2.foldl btreeInsert set) []) := by
            simp [WatchDescriptor.get_mask_set_for_directory, insert_lookup_self]
          refine ⟨nd, _, _, rfl, hget, ?_⟩
          rw [hget]
          rfl

/-- Concrete instantiation of C3 (the spec example): with Created already
registered on target a under /d, adding Created and Modified on target b
issues one registration whose mask 258 = CREATE ||| MODIFY is the OR of
the directory union. -/
theorem C3_registration_mask_is_union_witness :
    ∃ nd m u, [(dirD, (258 : Nat))] = [(nd, m)] ∧
      (NotifyStream.mk ⟨okOracle⟩
        ⟨[(dirD, [("a", [Masks.Created]),
          ("b", [Masks.Created, Masks.Modified])])]⟩).watchers.get_mask_set_for_directory nd =
        some u ∧
      m = pipe_masks_into_watch_mask u :=
  C3_registration_mask_is_union okOracle ⟨[(dirD, [("a", [Masks.Created])])]⟩
    dirD "b" [Masks.Created, Masks.Modified]
    ⟨⟨okOracle⟩, ⟨[(dirD, [("a", [Masks.Created]),
      ("b", [Masks.Created, Masks.Modified])])]⟩⟩
    [(dirD, 258)] (by rfl)

/-- Claim C8: an error from the OS polling primitive is yielded once,
wrapped in FromIOError, as the final item, whatever raw items would have
followed; an event whose name is not valid text likewise yields
ErrorCreatingStream once as the final item instead of being skipped. -/
theorem C8_stream_error_terminal :
    (∀ (w : WatchDescriptor) (code : Nat) (rest : List RawItem),
        streamProcess w (RawItem.err code :: rest) =
          [StreamItem.err (NotifyStreamError.FromIOError code)]) ∧
    (∀ (w : WatchDescriptor) (ev : RawEvent) (n : OsName) (rest : List RawItem),
        ev.name = some n → n.to_str = none →
        streamProcess w (RawItem.ok ev :: rest) =
          [StreamItem.err NotifyStreamError.ErrorCreatingStream]) := by
  constructor
  · intro w code rest
    rfl
  · intro w ev n rest hname hstr
    obtain ⟨wd0, mask0, name0⟩ := ev
    simp only at hname
    subst hname
    simp [streamProcess, hstr]

/-- Concrete instantiation of C8: a non-text file name ends the stream
with one ErrorCreatingStream item even though another raw item follows. -/
theorem C8_stream_error_terminal_witness :
    streamProcess WatchDescriptor.new
        [RawItem.ok ⟨dirD, 256, some (OsName.nonText 0)⟩, RawItem.err 3] =
      [StreamItem.err NotifyStreamError.ErrorCreatingStream] :=
  C8_stream_error_terminal.2 WatchDescriptor.new ⟨dirD, 256, some (OsName.nonText 0)⟩
    (OsName.nonText 0) [RawItem.err 3] rfl rfl

/-- Claim C6: with only (dirD, file_a, Created) registered, a raw
Created event for file_a yields exactly the one event (dirD/file_a,
Created), and a raw Deleted event for file_a yields nothing. -/
theorem C6_exact_target_matching :
    NotifyStream.stream ⟨⟨okOracle⟩, ⟨[(dirD, [("file_a", [Masks.Created])])]⟩⟩
        [RawItem.ok ⟨dirD, 256, some (OsName.text "file_a")⟩] =
      [StreamItem.ok (dirD.join "file_a") Masks.Created] ∧
    masksOfEventMask 256 = Masks.Created ∧
    NotifyStream.stream ⟨⟨okOracle⟩, ⟨[(dirD, [("file_a", [Masks.Created])])]⟩⟩
        [RawItem.ok ⟨dirD, 512, some (OsName.text "file_a")⟩] = [] ∧
    masksOfEventMask 512 = Masks.Deleted := by
  refine ⟨by rfl, rfl, by rfl, rfl⟩

/-- Claim C7: with (dirD, file_a, Created) and (dirD, wildcard, Created)
both registered, one raw Created event for file_a yields exactly two
events, both (dirD/file_a, Created). -/
theorem C7_duplicate_emission :
    NotifyStream.stream ⟨⟨okOracle⟩,
        ⟨[(dirD, [("file_a", [Masks.Created]), ("*", [Masks.Created])])]⟩⟩
        [RawItem.ok ⟨dirD, 256, some (OsName.text "file_a")⟩] =
      [StreamItem.ok (dirD.join "file_a") Masks.Created,
        StreamItem.ok (dirD.join "file_a") Masks.Created] := by
  rfl

/-- Claim C1 is contradicted by the code: the matching loop never
consults the watch the raw event was reported against, so with targets f
under both /d and /e, a Created event for f reported against /d also
yields the event (/e/f, Created) contributed by the registry entry of
the other directory /e. -/
theorem C1_cross_directory_leak :
    (RawEvent.mk dirD 256 (some (OsName.text "f"))).wd = dirD ∧
    dirE ≠ dirD ∧
    NotifyStream.stream ⟨⟨okOracle⟩,
        ⟨[(dirD, [("f", [Masks.Created])]), (dirE, [("f", [Masks.Created])])]⟩⟩
        [RawItem.ok ⟨dirD, 256, some (OsName.text "f")⟩] =
      [StreamItem.ok (dirD.join "f") Masks.Created,
        StreamItem.ok (dirE.join "f") Masks.Created] := by
  refine ⟨rfl, by decide, by rfl⟩

/-- Claim C10 as stated is refuted: the absolute, non-root directory
whose single component is the parent-dir marker has no extractable final
component, so normalisation with the empty file specification fails on
it. -/
theorem C10_counterexample :
    (RPath.mk true [Component.parentDir]).absolute = true ∧
    RPath.mk true [Component.parentDir] ≠ RPath.mk true [] ∧
    normalising_watch_dir_and_file ⟨true, [Component.parentDir]⟩ "" =
      Except.error (NotifyStreamError.ErrorNormalisingWatcher ⟨true, [Component.parentDir]⟩) := by
  refine ⟨rfl, by decide, by rfl⟩

/-- Claim C10 (amended): for every absolute directory that is not the
root and whose final component is a plain text name, normalisation with
the empty file specification succeeds, returning the parent of the
directory as the watch directory and the final component of the
directory as the target name, and add_watcher therefore succeeds too. -/
theorem C10_empty_target_redirects (cs : List Component) (s : String) :
    normalising_watch_dir_and_file ⟨true, cs ++ [Component.normal (OsName.text s)]⟩ "" =
      Except.ok (⟨true, cs⟩, s) ∧
    ∀ (f : RPath → Nat → Bool) (w : WatchDescriptor) (masks : List Masks),
      ∃ out, NotifyStream.add_watcher ⟨⟨f⟩, w⟩
          ⟨true, cs ++ [Component.normal (OsName.text s)]⟩ "" masks = Except.ok out := by
  have hjoin : (RPath.mk true (cs ++ [Component.normal (OsName.text s)])).join "" =
      RPath.mk true (cs ++ [Component.normal (OsName.text s)]) := by
    show RPath.mk true ((cs ++ [Component.normal (OsName.text s)]) ++ parseComponents "") =
      RPath.mk true (cs ++ [Component.normal (OsName.text s)])
    simp [parseComponents, splitSlashAux]
  have hparent : (RPath.mk true (cs ++ [Component.normal (OsName.text s)])).parent =
      some ⟨true, cs⟩ := by
    cases cs with
    | nil => rfl
    | cons c cs2 =>
        show some (RPath.mk true ((c :: (cs2 ++ [Component.normal (OsName.text s)])).dropLast)) =
          some (RPath.mk true (c :: cs2))
        rw [show c :: (cs2 ++ [Component.normal (OsName.text s)]) =
          (c :: cs2) ++ [Component.normal (OsName.text s)] from rfl]
        rw [List.dropLast_concat]
  have hfile : (RPath.mk true (cs ++ [Component.normal (OsName.text s)])).file_name =
      some (OsName.text s) := by
    simp [RPath.file_name, List.getLast?_concat]
  have hnorm : normalising_watch_dir_and_file
      ⟨true, cs ++ [Component.normal (OsName.text s)]⟩ "" = Except.ok (⟨true, cs⟩, s) := by
    simp [normalising_watch_dir_and_file, hjoin, hparent, hfile, OsName.to_str]
  refine ⟨hnorm, ?_⟩
  intro f w masks
  obtain ⟨desc⟩ := w
  cases desc with
  | nil =>
      exact ⟨(⟨⟨f⟩, WatchDescriptor.new.insert ⟨true, cs⟩ s masks⟩,
        [(⟨true, cs⟩, pipe_masks_into_watch_mask masks)]),
        by simp [NotifyStream.add_watcher, hnorm, List.isEmpty]⟩
  | cons hd tl =>
      exact ⟨(⟨⟨f⟩, WatchDescriptor.insert ⟨hd :: tl⟩ ⟨true, cs⟩ s masks⟩,
        [(⟨true, cs⟩, pipe_masks_into_watch_mask
          (((WatchDescriptor.insert ⟨hd :: tl⟩ ⟨true, cs⟩ s masks).get_mask_set_for_directory
            ⟨true, cs⟩).getD []))]),
        by simp [NotifyStream.add_watcher, hnorm, List.isEmpty]⟩

/-- Concrete instantiation of the amended C2: after inserting Created
twice for (dirD, t) with duplicate-free arguments, the entry counts
Created at most once. -/
theorem C2_insert_set_semantics_witness :
    List.count Masks.Created [Masks.Created] ≤ 1 :=
  C2_insert_set_semantics.1 [(dirD, "t", [Masks.Created]), (dirD, "t", [Masks.Created])]
    (by decide) (dirD, [("t", [Masks.Created])]) (by decide)
    ("t", [Masks.Created]) (by decide) Masks.Created

/-- Concrete instantiation of the amended C10: normalising /d/e with the
empty file specification redirects the watch onto /d with target e. -/
theorem C10_empty_target_redirects_witness :
    normalising_watch_dir_and_file
        ⟨true, [Component.normal (OsName.text "d"), Component.normal (OsName.text "e")]⟩ "" =
      Except.ok (⟨true, [Component.normal (OsName.text "d")]⟩, "e") :=
  (C10_empty_target_redirects [Component.normal (OsName.text "d")] "e").1
